import Mathlib

/-!
Verification of the Aim-TTi TGF4000 device driver (cgse repository).

The development shallowly embeds the Python modules

  * `egse/arbitrary_wave_generator/aim_tti/tgf4000_devif.py`
    (`Tgf4000EthernetInterface`: `write`, `trans`, `read`),
  * `egse/arbitrary_wave_generator/aim_tti/tgf4000.py`
    (`unpack_response`, `parse_ints`, `parse_floats`, `Tgf4000Simulator`),
  * `egse/arbitrary_wave_generator/aim_tti/tgf4000_protocol.py`
    (`Tgf4000Protocol`),
  * `egse/arbitrary_wave_generator/aim_tti/__init__.py` (`ArbData`)

into Lean.  Python strings are modelled as `List Char`, bytestrings as
`List Nat` (one entry per byte), Python floats that are merely stored and
returned (never computed with) as `ℚ`, and exceptions as `Option`/`Except`
results.  Socket interaction is modelled by an explicit list of receive
events.
-/

/-! ## Python string and bytes primitives used by the driver -/

/-- Latin-1 decoding of one byte: byte value `b` maps to the character with
code point `b` (a bijection on 0..255, so `errors="ignore"` never drops
anything). -/
def latin1Char (b : Nat) : Char := Char.ofNat b

/-- Latin-1 decoding of a bytestring, `bytes.decode(encoding="latin1")`. -/
def latin1Decode (bs : List Nat) : List Char := bs.map latin1Char

/-- Latin-1 encoding of a string, `str.encode(encoding="latin1")`.  Faithful
for strings whose characters have code points below 256, which is the case for
every string fed to it in this development. -/
def latin1Encode (s : List Char) : List Nat := s.map Char.toNat

/-- Python `str.replace(old, new)`: replace non-overlapping occurrences of
`old`, scanning left to right.  Python raises no error for `old = ""` (it
interleaves `new` everywhere); that case never occurs in the embedded code and
is guarded out here for termination. -/
def pyReplace (old new : List Char) : List Char → List Char
  | [] => []
  | c :: rest =>
    if old ≠ [] ∧ old.isPrefixOf (c :: rest) then
      new ++ pyReplace old new (rest.drop (old.length - 1))
    else
      c :: pyReplace old new rest
termination_by s => s.length
decreasing_by
  all_goals simp [List.length_drop]
  omega

/-- Helper for `pySplit`: scan the string, `acc` holds the characters of the
current field in reverse. -/
def pySplitAux (sep : List Char) : List Char → List Char → List (List Char)
  | [], acc => [acc.reverse]
  | c :: rest, acc =>
    if sep ≠ [] ∧ sep.isPrefixOf (c :: rest) then
      acc.reverse :: pySplitAux sep (rest.drop (sep.length - 1)) []
    else
      pySplitAux sep rest (c :: acc)
termination_by s _ => s.length
decreasing_by
  all_goals simp [List.length_drop]
  omega

/-- Python `str.split(sep)` for a non-empty separator: split on every
non-overlapping occurrence of `sep`, scanning left to right.  `split("")`
raises `ValueError` in Python and is never used by the embedded code;
it is mapped to the junk value `[]` here. -/
def pySplit (sep : List Char) (s : List Char) : List (List Char) :=
  if sep = [] then [] else pySplitAux sep s []

/-- Characters stripped by Python `str.strip()` / `str.rstrip()` (the ASCII
whitespace characters; the embedded code never meets other Unicode
whitespace). -/
def pyIsSpace (c : Char) : Bool :=
  c == ' ' || c == '\t' || c == '\n' || c == '\r' || c == '\x0b' || c == '\x0c'

/-- Python `str.strip()`. -/
def pyStrip (s : List Char) : List Char :=
  (s.dropWhile pyIsSpace).rdropWhile pyIsSpace

/-- Python `str.rstrip()`. -/
def pyRstrip (s : List Char) : List Char :=
  s.rdropWhile pyIsSpace

/-! ## Response unpacking (tgf4000.py, `unpack_response`, lines 48-69) -/

/-- Shallow embedding of `unpack_response` (tgf4000.py lines 48-69): on an
empty bytestring return `None`; otherwise decode as latin-1 (ignoring
errors, a no-op for latin-1), drop the terminators with
`.replace("\r", "").replace("\n", "")` and split on the delimiter `", "`. -/
def unpack_response (response : List Nat) : Option (List (List Char)) :=
  if response.length = 0 then
    none
  else
    some (pySplit [',', ' ']
      (pyReplace ['\n'] [] (pyReplace ['\r'] [] (latin1Decode response))))

/-- Replacing a single-character substring by the empty string is exactly
filtering that character out. -/
theorem pyReplace_single_char (c0 : Char) (s : List Char) :
    pyReplace [c0] [] s = s.filter (fun c => !(c == c0)) := by
  induction s with
  | nil => simp [pyReplace]
  | cons c rest ih =>
    by_cases h : c0 = c
    · subst h
      simp [pyReplace, List.isPrefixOf, ih]
    · have hbeq : (c0 == c) = false := by
        simp [h]
      simp [pyReplace, List.isPrefixOf, hbeq, ih, List.filter_cons, Ne.symm h]

/-- C4: for every non-empty response bytestring, `unpack_response` decodes it,
removes every carriage return and newline character, and splits on the fixed
delimiter `", "` into a list of strings; for the empty bytestring it returns
`None`. -/
theorem unpack_response_extracts_fields (response : List Nat) :
    (response = [] → unpack_response response = none) ∧
    (response ≠ [] →
      unpack_response response =
        some (pySplit [',', ' ']
          ((latin1Decode response).filter
            (fun c => !(c == '\n') && !(c == '\r'))))) := by
  constructor
  · intro h
    subst h
    simp [unpack_response]
  · intro h
    have hlen : response.length ≠ 0 := by simpa using h
    simp only [unpack_response, hlen, if_false, pyReplace_single_char,
      List.filter_filter, Option.some.injEq]

/-! ## Numeral parsing (tgf4000.py, `parse_ints` lines 72-90 and
`parse_floats` lines 93-111) -/

/-- Value of one decimal digit character. -/
def decDigitVal (c : Char) : Option Nat :=
  if 48 ≤ c.toNat ∧ c.toNat ≤ 57 then some (c.toNat - 48) else none

/-- Value of a string of decimal digits, most significant first, accumulated
into `acc`; `none` when a non-digit occurs. -/
def decDigitsValAux (acc : Nat) : List Char → Option Nat
  | [] => some acc
  | c :: rest =>
    match decDigitVal c with
    | none => none
    | some d => decDigitsValAux (10 * acc + d) rest

/-- Value of a non-empty string of decimal digits. -/
def decDigitsVal : List Char → Option Nat
  | [] => none
  | s => decDigitsValAux 0 s

/-- Python `int(item)` restricted to plain signed decimal numerals (an
optional sign followed by digits); `none` models `ValueError`.  The builtin
also tolerates surrounding whitespace and underscores between digits, which
the device responses never contain. -/
def pyInt (s : List Char) : Option Int :=
  match s with
  | [] => none
  | c :: rest =>
    if c = '-' then (decDigitsVal rest).map (fun n => -(n : Int))
    else if c = '+' then (decDigitsVal rest).map (fun n => (n : Int))
    else (decDigitsVal (c :: rest)).map (fun n => (n : Int))

/-- Magnitude part of Python `float(item)`: digits with an optional single
decimal point (`"12"`, `"12."`, `".5"`, `"1.25"`).  The parsed value is
represented exactly as a rational; the driver only stores and returns these
values, it never computes with them. -/
def pyFloatMag (s : List Char) : Option ℚ :=
  match s.dropWhile (fun c => !(c == '.')) with
  | [] => (decDigitsVal (s.takeWhile (fun c => !(c == '.')))).map (fun n => (n : ℚ))
  | _ :: frac =>
    if s.takeWhile (fun c => !(c == '.')) = [] ∧ frac = [] then none
    else if frac.any (fun c => c == '.') then none
    else
      match decDigitsValAux 0 (s.takeWhile (fun c => !(c == '.'))),
          decDigitsValAux 0 frac with
      | some i, some f => some ((i : ℚ) + (f : ℚ) / (10 : ℚ) ^ frac.length)
      | _, _ => none

/-- Python `float(item)` restricted to plain signed decimal numerals without
an exponent part; `none` models `ValueError`. -/
def pyFloat (s : List Char) : Option ℚ :=
  match s with
  | [] => none
  | c :: rest =>
    if c = '-' then (pyFloatMag rest).map Neg.neg
    else if c = '+' then pyFloatMag rest
    else pyFloatMag (c :: rest)

/-- Applying a fallible conversion to every element of a list, modelling the
Python loop `for index, item in enumerate(response): response[index] = f(item)`
in which `f` may raise. -/
def optionMapList (f : α → Option β) : List α → Option (List β)
  | [] => some []
  | x :: xs =>
    match f x, optionMapList f xs with
    | some y, some ys => some (y :: ys)
    | _, _ => none

/-- Result of `parse_ints` / `parse_floats`: the single element when the
response has exactly one field, the tuple of all elements otherwise. -/
inductive ScalarOrTuple (α : Type) where
  | single (v : α)
  | tuple (vs : List α)
deriving DecidableEq

/-- Shallow embedding of `parse_ints` (tgf4000.py lines 72-90): unpack the
response, convert every field with `int`, and return the single value when
there is exactly one field and the tuple of values otherwise.  `none` models
the `TypeError` raised by iterating `None` (empty response) and the
`ValueError` raised by `int` on a malformed field. -/
def parse_ints (response : List Nat) : Option (ScalarOrTuple Int) :=
  match unpack_response response with
  | none => none
  | some fields =>
    match optionMapList pyInt fields with
    | none => none
    | some vs =>
      match vs with
      | [v] => some (ScalarOrTuple.single v)
      | _ => some (ScalarOrTuple.tuple vs)

/-- Shallow embedding of `parse_floats` (tgf4000.py lines 93-111): as
`parse_ints` with `float` in place of `int`. -/
def parse_floats (response : List Nat) : Option (ScalarOrTuple ℚ) :=
  match unpack_response response with
  | none => none
  | some fields =>
    match optionMapList pyFloat fields with
    | none => none
    | some vs =>
      match vs with
      | [v] => some (ScalarOrTuple.single v)
      | _ => some (ScalarOrTuple.tuple vs)

/-- Joining fields with a separator; `joinSep sep fields` is the
`sep`-separated concatenation of the fields (the shape the claims describe a
well-formed device response to have). -/
def joinSep (sep : List Char) : List (List Char) → List Char
  | [] => []
  | [f] => f
  | f :: rest => f ++ sep ++ joinSep sep rest

/-! ## Supporting lemmas about splitting a well-formed response -/

/-- Scanning a comma-free field just moves it into the accumulator. -/
theorem pySplitAux_no_comma (f : List Char) (t acc : List Char)
    (hf : ∀ c ∈ f, c ≠ ',') :
    pySplitAux [',', ' '] (f ++ t) acc = pySplitAux [',', ' '] t (f.reverse ++ acc) := by
  induction f generalizing acc with
  | nil => simp
  | cons c rest ih =>
    have hc : (',' == c) = false := by
      have := hf c (List.mem_cons_self c rest)
      simp [Ne.symm this]
    simp only [List.cons_append, pySplitAux, List.isPrefixOf, hc, Bool.false_and,
      ne_eq, reduceCtorEq, not_false_iff, true_and, if_false, Bool.and_self]
    rw [ih _ (fun c hc => hf c (List.mem_cons_of_mem _ hc))]
    simp

/-- Scanning a string that starts with the separator emits the accumulated
field. -/
theorem pySplitAux_sep_head (t acc : List Char) :
    pySplitAux [',', ' '] (',' :: ' ' :: t) acc =
      acc.reverse :: pySplitAux [',', ' '] t [] := by
  simp [pySplitAux, List.isPrefixOf]

/-- Splitting the `", "`-joined fields recovers the fields, provided no field
contains a comma. -/
theorem pySplit_joinSep (fields : List (List Char)) (hne : fields ≠ [])
    (hf : ∀ f ∈ fields, ∀ c ∈ f, c ≠ ',') :
    pySplit [',', ' '] (joinSep [',', ' '] fields) = fields := by
  induction fields with
  | nil => exact absurd rfl hne
  | cons f rest ih =>
    have hff : ∀ c ∈ f, c ≠ ',' := hf f (List.mem_cons_self f rest)
    cases rest with
    | nil =>
      show pySplit [',', ' '] (joinSep [',', ' '] [f]) = [f]
      have : joinSep [',', ' '] [f] = f ++ [] := by simp [joinSep]
      rw [pySplit, if_neg (by simp), this, pySplitAux_no_comma f [] [] hff]
      simp [pySplitAux]
    | cons g rest2 =>
      have hjoin : joinSep [',', ' '] (f :: g :: rest2) =
          f ++ (',' :: ' ' :: joinSep [',', ' '] (g :: rest2)) := by
        simp [joinSep]
      rw [pySplit, if_neg (by simp), hjoin, pySplitAux_no_comma f _ [] hff,
        pySplitAux_sep_head]
      have ih2 := ih (by simp)
        (fun f2 hf2 => hf f2 (List.mem_cons_of_mem _ hf2))
      rw [pySplit, if_neg (by simp)] at ih2
      simp [ih2]

/-- Characters of a joined list of fields come from a field or from the
separator. -/
theorem mem_joinSep (sep : List Char) (fields : List (List Char)) (c : Char)
    (hc : c ∈ joinSep sep fields) : (∃ f ∈ fields, c ∈ f) ∨ c ∈ sep := by
  induction fields with
  | nil => simp [joinSep] at hc
  | cons f rest ih =>
    cases rest with
    | nil =>
      simp only [joinSep] at hc
      exact Or.inl ⟨f, by simp, hc⟩
    | cons g rest2 =>
      simp only [joinSep, List.append_assoc, List.mem_append] at hc
      rcases hc with hc | hc | hc
      · exact Or.inl ⟨f, by simp, hc⟩
      · exact Or.inr hc
      · rcases ih hc with ⟨f2, hf2, hcf2⟩ | hsep
        · exact Or.inl ⟨f2, List.mem_cons_of_mem _ hf2, hcf2⟩
        · exact Or.inr hsep

/-- A joined list whose first field is non-empty is non-empty. -/
theorem joinSep_ne_nil (sep : List Char) (f : List Char) (rest : List (List Char))
    (hf : f ≠ []) : joinSep sep (f :: rest) ≠ [] := by
  cases rest with
  | nil => simpa [joinSep] using hf
  | cons g rest2 => simp [joinSep, hf]

/-- Latin-1 encoding then decoding is the identity on strings. -/
theorem latin1_roundtrip (s : List Char) : latin1Decode (latin1Encode s) = s := by
  simp [latin1Decode, latin1Encode, latin1Char, List.map_map, Function.comp_def,
    Char.ofNat_toNat]

/-! ## Character facts about successfully parsed numerals -/

/-- A successfully accumulated digit string consists of decimal digits. -/
theorem decDigitsValAux_digits (s : List Char) :
    ∀ acc n, decDigitsValAux acc s = some n →
      ∀ c ∈ s, 48 ≤ c.toNat ∧ c.toNat ≤ 57 := by
  induction s with
  | nil => simp
  | cons c rest ih =>
    intro acc n h d hd
    rcases hdc : decDigitVal c with _ | dv
    · rw [decDigitsValAux, hdc] at h
      exact absurd h (by simp)
    · rw [decDigitsValAux, hdc] at h
      rcases List.mem_cons.mp hd with rfl | hd2
      · by_cases hb : 48 ≤ d.toNat ∧ d.toNat ≤ 57
        · exact hb
        · rw [decDigitVal, if_neg hb] at hdc
          exact absurd hdc (by simp)
      · exact ih _ _ h d hd2

/-- A successfully parsed non-empty digit string consists of decimal digits. -/
theorem decDigitsVal_digits (s : List Char) (n : Nat) (h : decDigitsVal s = some n) :
    ∀ c ∈ s, 48 ≤ c.toNat ∧ c.toNat ≤ 57 := by
  cases s with
  | nil => simp
  | cons c rest => exact decDigitsValAux_digits (c :: rest) 0 n h

/-- Decimal digit characters are neither the delimiter comma nor a
terminator. -/
theorem digit_char_facts (c : Char) (h1 : 48 ≤ c.toNat) (h2 : c.toNat ≤ 57) :
    c ≠ ',' ∧ c ≠ '\r' ∧ c ≠ '\n' := by
  refine ⟨?_, ?_, ?_⟩ <;> rintro rfl <;> revert h1 h2 <;> decide

/-- A string accepted by `pyInt` is non-empty. -/
theorem pyInt_ne_nil (s : List Char) (v : Int) (h : pyInt s = some v) : s ≠ [] := by
  rintro rfl
  exact Option.noConfusion h

/-- A string accepted by `pyInt` contains neither the delimiter comma nor a
terminator character. -/
theorem pyInt_chars (s : List Char) (v : Int) (h : pyInt s = some v) :
    ∀ c ∈ s, c ≠ ',' ∧ c ≠ '\r' ∧ c ≠ '\n' := by
  intro c hc
  cases s with
  | nil => simp at hc
  | cons c0 rest =>
    rw [pyInt] at h
    by_cases h0 : c0 = '-'
    · rw [if_pos h0] at h
      rcases hdv : decDigitsVal rest with _ | n
      · rw [hdv] at h
        exact absurd h (by simp)
      · rcases List.mem_cons.mp hc with rfl | hc2
        · subst h0
          exact ⟨by decide, by decide, by decide⟩
        · obtain ⟨hb1, hb2⟩ := decDigitsVal_digits rest n hdv c hc2
          exact digit_char_facts c hb1 hb2
    · rw [if_neg h0] at h
      by_cases h1 : c0 = '+'
      · rw [if_pos h1] at h
        rcases hdv : decDigitsVal rest with _ | n
        · rw [hdv] at h
          exact absurd h (by simp)
        · rcases List.mem_cons.mp hc with rfl | hc2
          · subst h1
            exact ⟨by decide, by decide, by decide⟩
          · obtain ⟨hb1, hb2⟩ := decDigitsVal_digits rest n hdv c hc2
            exact digit_char_facts c hb1 hb2
      · rw [if_neg h1] at h
        rcases hdv : decDigitsVal (c0 :: rest) with _ | n
        · rw [hdv] at h
          exact absurd h (by simp)
        · obtain ⟨hb1, hb2⟩ := decDigitsVal_digits _ n hdv c hc
          exact digit_char_facts c hb1 hb2

/-- Witness for C4 at the concrete response bytes of `"5, 6\r\n"`. -/
theorem unpack_response_extracts_fields_witness :
    ([53, 44, 32, 54, 13, 10] : List Nat) ≠ [] ∧
      unpack_response [53, 44, 32, 54, 13, 10] =
        some (pySplit [',', ' ']
          ((latin1Decode [53, 44, 32, 54, 13, 10]).filter
            (fun c => !(c == '\n') && !(c == '\r')))) :=
  ⟨by decide, (unpack_response_extracts_fields [53, 44, 32, 54, 13, 10]).2 (by decide)⟩

/-- The head of the remainder of `dropWhile` falsifies the predicate. -/
theorem dropWhile_head_not (p : α → Bool) (l : List α) (d : α) (rest : List α)
    (h : l.dropWhile p = d :: rest) : p d = false := by
  induction l with
  | nil => simp at h
  | cons c cs ih =>
    by_cases hp : p c
    · rw [List.dropWhile_cons_of_pos hp] at h
      exact ih h
    · rw [List.dropWhile_cons_of_neg hp] at h
      cases h
      simpa using hp

/-- A string accepted by `pyFloatMag` consists of digits and the decimal
point. -/
theorem pyFloatMag_chars (s : List Char) (v : ℚ) (h : pyFloatMag s = some v) :
    ∀ c ∈ s, (48 ≤ c.toNat ∧ c.toNat ≤ 57) ∨ c = '.' := by
  intro c hc
  have hs := List.takeWhile_append_dropWhile (p := fun c => !(c == '.')) (l := s)
  rw [pyFloatMag] at h
  split at h
  · rename_i heq
    rw [heq, List.append_nil] at hs
    rcases hn : decDigitsVal (s.takeWhile (fun c => !(c == '.'))) with _ | n
    · rw [hn] at h
      exact absurd h (by simp)
    · exact Or.inl (decDigitsVal_digits _ n hn c (by rw [hs]; exact hc))
  · rename_i d frac heq
    have hdot : d = '.' := by simpa using dropWhile_head_not _ s d frac heq
    rw [heq] at hs
    rw [← hs] at hc
    split at h
    · exact absurd h (by simp)
    · split at h
      · exact absurd h (by simp)
      · split at h
        · rename_i i f hi hf2
          rcases List.mem_append.mp hc with hip | hdf
          · exact Or.inl (decDigitsValAux_digits _ 0 i hi c hip)
          · rcases List.mem_cons.mp hdf with rfl | hfr
            · exact Or.inr hdot
            · exact Or.inl (decDigitsValAux_digits _ 0 f hf2 c hfr)
        · exact absurd h (by simp)

/-- A string accepted by `pyFloat` is non-empty. -/
theorem pyFloat_ne_nil (s : List Char) (v : ℚ) (h : pyFloat s = some v) : s ≠ [] := by
  rintro rfl
  exact Option.noConfusion h

/-- A string accepted by `pyFloat` contains neither the delimiter comma nor a
terminator character. -/
theorem pyFloat_chars (s : List Char) (v : ℚ) (h : pyFloat s = some v) :
    ∀ c ∈ s, c ≠ ',' ∧ c ≠ '\r' ∧ c ≠ '\n' := by
  have magCase : ∀ (t : List Char) (w : ℚ), pyFloatMag t = some w →
      ∀ c ∈ t, c ≠ ',' ∧ c ≠ '\r' ∧ c ≠ '\n' := by
    intro t w hw c hct
    rcases pyFloatMag_chars t w hw c hct with ⟨hb1, hb2⟩ | rfl
    · exact digit_char_facts c hb1 hb2
    · exact ⟨by decide, by decide, by decide⟩
  intro c hc
  cases s with
  | nil => simp at hc
  | cons c0 rest =>
    rw [pyFloat] at h
    by_cases h0 : c0 = '-'
    · rw [if_pos h0] at h
      rcases hm : pyFloatMag rest with _ | w
      · rw [hm] at h
        exact absurd h (by simp)
      · rcases List.mem_cons.mp hc with rfl | hc2
        · subst h0
          exact ⟨by decide, by decide, by decide⟩
        · exact magCase rest w hm c hc2
    · rw [if_neg h0] at h
      by_cases h1 : c0 = '+'
      · rw [if_pos h1] at h
        rcases hm : pyFloatMag rest with _ | w
        · rw [hm] at h
          exact absurd h (by simp)
        · rcases List.mem_cons.mp hc with rfl | hc2
          · subst h1
            exact ⟨by decide, by decide, by decide⟩
          · exact magCase rest w hm c hc2
      · rw [if_neg h1] at h
        rcases hm : pyFloatMag (c0 :: rest) with _ | w
        · rw [hm] at h
          exact absurd h (by simp)
        · exact magCase (c0 :: rest) w hm c hc

/-- Successful element-wise conversion means every element converts. -/
theorem optionMapList_mem (f : α → Option β) (xs : List α) (ys : List β)
    (h : optionMapList f xs = some ys) : ∀ x ∈ xs, ∃ y, f x = some y := by
  induction xs generalizing ys with
  | nil => simp
  | cons x rest ih =>
    intro a ha
    rw [optionMapList] at h
    split at h
    · rename_i y ys2 hy hys
      rcases List.mem_cons.mp ha with rfl | ha2
      · exact ⟨y, hy⟩
      · exact ih ys2 hys a ha2
    · exact absurd h (by simp)

/-- Unpacking a well-formed, latin-1 encoded response recovers the fields. -/
theorem unpack_response_joinSep (fields : List (List Char)) (term : List Char)
    (hne : fields ≠ [])
    (hhead : ∀ f ∈ fields, f ≠ [])
    (hgood : ∀ f ∈ fields, ∀ c ∈ f, c ≠ ',' ∧ c ≠ '\r' ∧ c ≠ '\n')
    (hterm : ∀ c ∈ term, c = '\r' ∨ c = '\n') :
    unpack_response (latin1Encode (joinSep [',', ' '] fields ++ term)) =
      some fields := by
  obtain ⟨f0, rest0, rfl⟩ : ∃ f0 rest0, fields = f0 :: rest0 := by
    cases fields with
    | nil => exact absurd rfl hne
    | cons a b => exact ⟨a, b, rfl⟩
  have hjoin_ne : joinSep [',', ' '] (f0 :: rest0) ≠ [] :=
    joinSep_ne_nil _ f0 rest0 (hhead f0 (by simp))
  have hne2 : latin1Encode (joinSep [',', ' '] (f0 :: rest0) ++ term) ≠ [] := by
    simp only [latin1Encode, ne_eq, List.map_eq_nil_iff, List.append_eq_nil]
    rintro ⟨hj, -⟩
    exact hjoin_ne hj
  rw [(unpack_response_extracts_fields _).2 hne2, latin1_roundtrip]
  have h1 : (joinSep [',', ' '] (f0 :: rest0)).filter
      (fun c => !(c == '\n') && !(c == '\r')) = joinSep [',', ' '] (f0 :: rest0) := by
    apply List.filter_eq_self.mpr
    intro c hcj
    rcases mem_joinSep _ _ c hcj with ⟨f, hf, hcf⟩ | hsep
    · obtain ⟨-, h2, h3⟩ := hgood f hf c hcf
      simp [h2, h3]
    · have : c = ',' ∨ c = ' ' := by simpa using hsep
      rcases this with rfl | rfl <;> decide
  have h2 : term.filter (fun c => !(c == '\n') && !(c == '\r')) = [] := by
    rw [List.filter_eq_nil_iff]
    intro c hct
    rcases hterm c hct with rfl | rfl <;> decide
  rw [List.filter_append, h1, h2, List.append_nil,
    pySplit_joinSep _ (by simp) (fun f hf c hcf => (hgood f hf c hcf).1)]

/-- C5: for every non-empty device response consisting of comma-space
separated decimal numerals with optional terminator characters, `parse_ints`
returns the single integer value when there is exactly one field and the
tuple of the integer values in order when there are several; `parse_floats`
behaves identically for floating-point numerals. -/
theorem parse_ints_floats_single_or_tuple :
    (∀ (fields : List (List Char)) (vs : List Int) (term : List Char),
      fields ≠ [] →
      (∀ c ∈ term, c = '\r' ∨ c = '\n') →
      optionMapList pyInt fields = some vs →
      parse_ints (latin1Encode (joinSep [',', ' '] fields ++ term)) =
        some (match vs with
          | [v] => ScalarOrTuple.single v
          | _ => ScalarOrTuple.tuple vs)) ∧
    (∀ (fields : List (List Char)) (vs : List ℚ) (term : List Char),
      fields ≠ [] →
      (∀ c ∈ term, c = '\r' ∨ c = '\n') →
      optionMapList pyFloat fields = some vs →
      parse_floats (latin1Encode (joinSep [',', ' '] fields ++ term)) =
        some (match vs with
          | [v] => ScalarOrTuple.single v
          | _ => ScalarOrTuple.tuple vs)) := by
  constructor
  · intro fields vs term hne hterm hmap
    have hmem := optionMapList_mem pyInt fields vs hmap
    have hhead : ∀ f ∈ fields, f ≠ [] := fun f hf => by
      obtain ⟨v, hv⟩ := hmem f hf
      exact pyInt_ne_nil f v hv
    have hgood : ∀ f ∈ fields, ∀ c ∈ f, c ≠ ',' ∧ c ≠ '\r' ∧ c ≠ '\n' :=
      fun f hf => by
        obtain ⟨v, hv⟩ := hmem f hf
        exact pyInt_chars f v hv
    simp only [parse_ints,
      unpack_response_joinSep fields term hne hhead hgood hterm, hmap]
    rcases vs with _ | ⟨v, _ | ⟨v2, vs2⟩⟩ <;> rfl
  · intro fields vs term hne hterm hmap
    have hmem := optionMapList_mem pyFloat fields vs hmap
    have hhead : ∀ f ∈ fields, f ≠ [] := fun f hf => by
      obtain ⟨v, hv⟩ := hmem f hf
      exact pyFloat_ne_nil f v hv
    have hgood : ∀ f ∈ fields, ∀ c ∈ f, c ≠ ',' ∧ c ≠ '\r' ∧ c ≠ '\n' :=
      fun f hf => by
        obtain ⟨v, hv⟩ := hmem f hf
        exact pyFloat_chars f v hv
    simp only [parse_floats,
      unpack_response_joinSep fields term hne hhead hgood hterm, hmap]
    rcases vs with _ | ⟨v, _ | ⟨v2, vs2⟩⟩ <;> rfl

/-- Witness for C5 at the concrete responses `"42\r\n"` (one field, integer)
and `"1.5, 2\r\n"` (two fields, floats). -/
theorem parse_ints_floats_single_or_tuple_witness :
    (([['4', '2']] : List (List Char)) ≠ [] ∧
      (∀ c ∈ (['\r', '\n'] : List Char), c = '\r' ∨ c = '\n') ∧
      optionMapList pyInt [['4', '2']] = some [42] ∧
      parse_ints (latin1Encode (joinSep [',', ' '] [['4', '2']] ++ ['\r', '\n'])) =
        some (ScalarOrTuple.single 42)) ∧
    (([['1', '.', '5'], ['2']] : List (List Char)) ≠ [] ∧
      optionMapList pyFloat [['1', '.', '5'], ['2']] = some [(3 : ℚ) / 2, 2] ∧
      parse_floats (latin1Encode
          (joinSep [',', ' '] [['1', '.', '5'], ['2']] ++ ['\r', '\n'])) =
        some (ScalarOrTuple.tuple [(3 : ℚ) / 2, 2])) :=
  ⟨⟨by decide, by decide, by decide,
      parse_ints_floats_single_or_tuple.1 [['4', '2']] [42] ['\r', '\n']
        (by decide) (by decide) (by decide)⟩,
    ⟨by decide,
      by simp [optionMapList, pyFloat, pyFloatMag, decDigitsVal,
          decDigitsValAux, decDigitVal]; norm_num,
      parse_ints_floats_single_or_tuple.2 [['1', '.', '5'], ['2']]
        [(3 : ℚ) / 2, 2] ['\r', '\n'] (by decide) (by decide)
        (by simp [optionMapList, pyFloat, pyFloatMag, decDigitsVal,
            decDigitsValAux, decDigitVal]; norm_num)⟩⟩

/-! ## Ethernet transport (tgf4000_devif.py, `Tgf4000EthernetInterface`) -/

/-- Behaviour of one `self._sock.recv(2048)` call, as driven by the peer:
a chunk of data is returned, or the call raises `socket.timeout` (or
`TimeoutError`), or it raises another `socket.error`. -/
inductive RecvEv where
  | chunk (data : List Nat)
  | timeout
  | sockErr
deriving DecidableEq

/-- Exceptions that can escape the transport methods: the two device error
classes the driver raises, and an untranslated `socket.error`. -/
inductive PyErr where
  | devTimeout
  | devConn
  | sockError
deriving DecidableEq

/-- Behaviour of the single `self._sock.sendall(...)` call of `write` /
`trans`. -/
inductive SendEv where
  | ok
  | timeout
  | sockErr
deriving DecidableEq

/-- Decidable equality of `Except` results, so that concrete transport
outcomes can be checked by `decide`. -/
instance exceptDecEq {ε α : Type} [DecidableEq ε] [DecidableEq α] :
    DecidableEq (Except ε α) := fun x y =>
  match x, y with
  | Except.ok a, Except.ok b =>
    if h : a = b then Decidable.isTrue (by rw [h])
    else Decidable.isFalse (by intro e; injection e; contradiction)
  | Except.error a, Except.error b =>
    if h : a = b then Decidable.isTrue (by rw [h])
    else Decidable.isFalse (by intro e; injection e; contradiction)
  | Except.ok _, Except.error _ => Decidable.isFalse (by intro e; exact Except.noConfusion e)
  | Except.error _, Except.ok _ => Decidable.isFalse (by intro e; exact Except.noConfusion e)

/-- The `for idx in range(100)` loop of `read` (tgf4000_devif.py lines
282-294): `fuel` is the number of remaining iterations, `prev` the last value
bound to `data`.  Each step receives the next event; a short chunk
(`n < buf_size` with `buf_size = 2048`) breaks out of the loop; a timeout is
caught and turned into the normal return `b"\r\n"`; any other socket error
propagates.  When the peer has no further event, the blocking `recv`
eventually raises `socket.timeout`.  The second component counts the `recv`
calls performed. -/
def readLoop : Nat → List RecvEv → List Nat → (Except PyErr (List Nat)) × Nat
  | 0, _, prev => (Except.ok prev, 0)
  | Nat.succ fuel, evs, prev =>
    match evs with
    | [] => (Except.ok [13, 10], 1)
    | RecvEv.chunk d :: rest =>
      if d.length < 2048 then
        (Except.ok d, 1)
      else
        let r := readLoop fuel rest d
        (r.1, r.2 + 1)
    | RecvEv.timeout :: _ => (Except.ok [13, 10], 1)
    | RecvEv.sockErr :: _ => (Except.error PyErr.sockError, 1)

/-- Result of `read`: the returned bytes or escaping exception, the number of
`recv` calls performed, and the socket timeout setting in force after the
`finally` clause ran. -/
structure ReadResult where
  outcome : Except PyErr (List Nat)
  recvCalls : Nat
  finalTimeout : Option ℚ
deriving DecidableEq

/-- Shallow embedding of `Tgf4000EthernetInterface.read` (tgf4000_devif.py
lines 267-299): save the current socket timeout, set the read timeout, run
the receive loop (at most 100 iterations), and restore the saved timeout in
the `finally` clause on every exit path.  Note that the source returns only
`data` — the last chunk received — although it also accumulates `n_total`;
earlier full chunks are discarded. -/
def Tgf4000.read (saved : Option ℚ) (evs : List RecvEv) : ReadResult :=
  let r := readLoop 100 evs []
  { outcome := r.1, recvCalls := r.2, finalTimeout := saved }

/-- Python `str.endswith("\n")`. -/
def pyEndswithNL (s : List Char) : Bool :=
  s.getLast? == some '\n'

/-- The bytes handed to `self._sock.sendall` by `write` and `trans`
(tgf4000_devif.py lines 208-210 and 242-244):
`command += "\n" if not command.endswith("\n") else ""`. -/
def Tgf4000.sentBytes (command : List Char) : List Char :=
  command ++ (if !(pyEndswithNL command) then ['\n'] else [])

/-- Result of `write`: the bytes handed to `sendall` (the command with the
line terminator appended when missing) and the normal or error outcome. -/
structure WriteResult where
  sent : List Char
  result : Except PyErr Unit
deriving DecidableEq

/-- Shallow embedding of `Tgf4000EthernetInterface.write` (tgf4000_devif.py
lines 196-221): append the line terminator when missing and send; a
`socket.timeout` becomes `DeviceTimeoutError`, any other `socket.error`
becomes `DeviceConnectionError`. -/
def Tgf4000.write (command : List Char) (ev : SendEv) : WriteResult :=
  { sent := Tgf4000.sentBytes command
    result :=
      match ev with
      | SendEv.ok => Except.ok ()
      | SendEv.timeout => Except.error PyErr.devTimeout
      | SendEv.sockErr => Except.error PyErr.devConn }

/-- Return value of `trans`: a string (the decoded, right-stripped reply) or,
when UTF-8 decoding fails, the raw reply bytes. -/
inductive TransRet where
  | txt (v : List Char)
  | raw (v : List Nat)
deriving DecidableEq

/-- Python `bytes.decode()` (UTF-8), modelled on ASCII inputs: every device
reply consists of bytes below 128, for which UTF-8 decoding maps each byte to
the character with the same code point.  Multi-byte UTF-8 sequences are not
modelled; the theorems only evaluate this on ASCII replies. -/
def utf8Decode (bs : List Nat) : Option (List Char) :=
  if bs.all (fun b => b < 128) then some (bs.map Char.ofNat) else none

/-- Result of `trans`: the bytes handed to `sendall` and the normal or error
outcome. -/
structure TransResult where
  sent : List Char
  result : Except PyErr TransRet
deriving DecidableEq

/-- Shallow embedding of `Tgf4000EthernetInterface.trans` (tgf4000_devif.py
lines 223-265): append the line terminator when missing, send, then call
`self.read()` and return the decoded, right-stripped reply.  A
`socket.timeout` raised by `sendall` becomes `DeviceTimeoutError`; a
`socket.error` (raised by `sendall`, or escaping `read`) becomes
`DeviceConnectionError`; a `UnicodeError` during decoding returns the raw
bytes; a timeout inside `read` was already absorbed there. -/
def Tgf4000.trans (command : List Char) (sendEv : SendEv) (saved : Option ℚ)
    (evs : List RecvEv) : TransResult :=
  { sent := Tgf4000.sentBytes command
    result :=
      match sendEv with
      | SendEv.timeout => Except.error PyErr.devTimeout
      | SendEv.sockErr => Except.error PyErr.devConn
      | SendEv.ok =>
        match (Tgf4000.read saved evs).outcome with
        | Except.error _ => Except.error PyErr.devConn
        | Except.ok bs =>
          match utf8Decode bs with
          | some sC => Except.ok (TransRet.txt (pyRstrip sC))
          | none => Except.ok (TransRet.raw bs) }

/-- The receive loop performs at most `fuel` recv calls. -/
theorem readLoop_calls_le (fuel : Nat) (evs : List RecvEv) (prev : List Nat) :
    (readLoop fuel evs prev).2 ≤ fuel := by
  induction fuel generalizing evs prev with
  | zero => simp [readLoop]
  | succ k ih =>
    cases evs with
    | nil => simp [readLoop]
    | cons e rest =>
      cases e with
      | chunk d =>
        by_cases hd : d.length < 2048
        · simp [readLoop, hd]
        · have := ih rest d
          simp [readLoop, hd]
          omega
      | timeout => simp [readLoop]
      | sockErr => simp [readLoop]

/-- Prepending full 2048-byte chunks to the event list adds one recv call per
chunk and leaves the remainder of the loop unchanged, while fuel remains. -/
theorem readLoop_full_chunks (fulls : List (List Nat)) :
    ∀ (fuel : Nat) (tail : List RecvEv) (prev : List Nat),
      (∀ c ∈ fulls, c.length = 2048) → fulls.length < fuel →
      ∃ prev2,
        readLoop fuel (fulls.map RecvEv.chunk ++ tail) prev =
          ((readLoop (fuel - fulls.length) tail prev2).1,
            (readLoop (fuel - fulls.length) tail prev2).2 + fulls.length) := by
  induction fulls with
  | nil =>
    intro fuel tail prev hf hlen
    exact ⟨prev, by simp⟩
  | cons c fulls2 ih =>
    intro fuel tail prev hf hlen
    cases fuel with
    | zero => exact absurd hlen (by simp)
    | succ k =>
      have hc : c.length = 2048 := hf c (by simp)
      have hnot : ¬ (c.length < 2048) := by omega
      obtain ⟨p2, hp⟩ := ih k tail c
        (fun x hx => hf x (List.mem_cons_of_mem _ hx)) (by simp at hlen; omega)
      refine ⟨p2, ?_⟩
      simp only [List.map_cons, List.cons_append, readLoop, hnot, if_false]
      rw [hp]
      simp only [List.length_cons, Nat.succ_sub_succ]
      rw [Nat.add_assoc]

/-- With fuel remaining, a short first chunk stops the loop at once and is
returned as is. -/
theorem readLoop_short_first (fuel : Nat) (d : List Nat) (rest : List RecvEv)
    (prev : List Nat) (hd : d.length < 2048) (hfuel : fuel ≠ 0) :
    readLoop fuel (RecvEv.chunk d :: rest) prev = (Except.ok d, 1) := by
  cases fuel with
  | zero => exact absurd rfl hfuel
  | succ k => simp [readLoop, hd]

/-- C1 (code bug): when the peer delivers a full 2048-byte chunk followed by
a short chunk, `read` returns only the final short chunk.  The accumulated
length `n_total` is computed but never used and earlier chunks are discarded,
so the returned bytes are not the concatenation of the chunks of the
transaction. -/
theorem read_returns_only_last_chunk :
    (Tgf4000.read none
        [RecvEv.chunk (List.replicate 2048 65), RecvEv.chunk [88, 89, 90]]).outcome =
      Except.ok [88, 89, 90] ∧
    ([88, 89, 90] : List Nat) ≠ List.replicate 2048 65 ++ [88, 89, 90] := by
  constructor
  · obtain ⟨p2, hp⟩ := readLoop_full_chunks [List.replicate 2048 65] 100
      [RecvEv.chunk [88, 89, 90]] []
      (fun c hc => by rw [List.mem_singleton] at hc; rw [hc, List.length_replicate])
      (by rw [List.length_singleton]; omega)
    have hevs : [RecvEv.chunk (List.replicate 2048 65), RecvEv.chunk [88, 89, 90]] =
        ([List.replicate 2048 65].map RecvEv.chunk) ++ [RecvEv.chunk [88, 89, 90]] := rfl
    have hshort := readLoop_short_first (100 - ([List.replicate 2048 65]).length)
        [88, 89, 90] [] p2 (by decide) (by rw [List.length_singleton]; omega)
    simp only [Tgf4000.read, hevs, hp, hshort]
  · intro h
    have hl := congrArg List.length h
    rw [List.length_append, List.length_replicate] at hl
    norm_num at hl


/-- C6: `read` always terminates, performing at most 100 recv calls; it stops
as soon as a recv returns fewer than 2048 bytes, returning that chunk after
one recv per preceding full chunk plus one; it returns `b"\r\n"` when the
read timeout elapses (the recv raises a timeout, or the peer stops sending,
before any short chunk arrives); and on every exit path the socket's saved
timeout value is restored. -/
theorem read_blocks_until_response_or_timeout (saved : Option ℚ) (evs : List RecvEv) :
    (Tgf4000.read saved evs).recvCalls ≤ 100 ∧
    (Tgf4000.read saved evs).finalTimeout = saved ∧
    (∀ (fulls : List (List Nat)) (d : List Nat) (rest : List RecvEv),
      evs = fulls.map RecvEv.chunk ++ (RecvEv.chunk d :: rest) →
      (∀ c ∈ fulls, c.length = 2048) →
      fulls.length + 1 ≤ 100 → d.length < 2048 →
      (Tgf4000.read saved evs).outcome = Except.ok d ∧
      (Tgf4000.read saved evs).recvCalls = fulls.length + 1) ∧
    (∀ (fulls : List (List Nat)) (rest : List RecvEv),
      (evs = fulls.map RecvEv.chunk ++ (RecvEv.timeout :: rest) ∨
        evs = fulls.map RecvEv.chunk) →
      (∀ c ∈ fulls, c.length = 2048) →
      fulls.length + 1 ≤ 100 →
      (Tgf4000.read saved evs).outcome = Except.ok [13, 10]) := by
  refine ⟨readLoop_calls_le 100 evs [], rfl, ?_, ?_⟩
  · intro fulls d rest hevs hf hlen hd
    subst hevs
    obtain ⟨p2, hp⟩ := readLoop_full_chunks fulls 100 (RecvEv.chunk d :: rest) [] hf
      (by omega)
    have hshort := readLoop_short_first (100 - fulls.length) d rest p2 hd (by omega)
    constructor
    · simp only [Tgf4000.read, hp, hshort]
    · simp only [Tgf4000.read, hp, hshort]
      omega
  · intro fulls rest hevs hf hlen
    rcases hevs with hevs | hevs <;> subst hevs
    · obtain ⟨p2, hp⟩ := readLoop_full_chunks fulls 100 (RecvEv.timeout :: rest) [] hf
        (by omega)
      have hstep : readLoop (100 - fulls.length) (RecvEv.timeout :: rest) p2 =
          (Except.ok [13, 10], 1) := by
        rcases hfu : 100 - fulls.length with _ | k
        · omega
        · simp [readLoop]
      simp only [Tgf4000.read, hp, hstep]
    · obtain ⟨p2, hp⟩ := readLoop_full_chunks fulls 100 [] [] hf (by omega)
      rw [List.append_nil] at hp
      have hstep : readLoop (100 - fulls.length) ([] : List RecvEv) p2 =
          (Except.ok [13, 10], 1) := by
        rcases hfu : 100 - fulls.length with _ | k
        · omega
        · simp [readLoop]
      simp only [Tgf4000.read, hp, hstep]

/-- Witness for C6: a peer that answers with one short chunk; the chunk is
returned after a single recv call and the saved timeout (none, blocking) is
restored. -/
theorem read_blocks_until_response_or_timeout_witness :
    (Tgf4000.read none [RecvEv.chunk [65, 66]]).recvCalls ≤ 100 ∧
    (Tgf4000.read none [RecvEv.chunk [65, 66]]).finalTimeout = none ∧
    (Tgf4000.read none [RecvEv.chunk [65, 66]]).outcome = Except.ok [65, 66] ∧
    (Tgf4000.read none [RecvEv.chunk [65, 66]]).recvCalls = 1 := by
  have h := read_blocks_until_response_or_timeout none [RecvEv.chunk [65, 66]]
  have h3 := h.2.2.1 [] [65, 66] [] rfl (by simp) (by decide) (by decide)
  exact ⟨h.1, h.2.1, h3.1, h3.2⟩

/-- C2 counterexample: a socket timeout during `read` does NOT raise
`DeviceTimeoutError`; it is absorbed into the normal return value `b"\r\n"`.
This refutes the claim that for every transport operation a socket timeout
raises `DeviceTimeoutError` and that no socket error is absorbed into a
normal return value. -/
theorem read_timeout_absorbed :
    (Tgf4000.read none [RecvEv.timeout]).outcome = Except.ok [13, 10] ∧
    (Tgf4000.read none [RecvEv.timeout]).outcome ≠ Except.error PyErr.devTimeout := by
  constructor <;> decide

/-- C2 (amended): `write` and the send phase of `trans` translate a socket
timeout to `DeviceTimeoutError` and any other socket error to
`DeviceConnectionError`; a raw socket error escaping `read` is translated to
`DeviceConnectionError` by `trans` but propagates untranslated out of a
direct `read` call; a socket timeout during the read phase is absorbed into a
normal return (`read` returns `b"\r\n"`, so `trans` returns the empty
string). -/
theorem socket_error_translation (command : List Char) (saved : Option ℚ)
    (evs : List RecvEv) :
    (Tgf4000.write command SendEv.timeout).result = Except.error PyErr.devTimeout ∧
    (Tgf4000.write command SendEv.sockErr).result = Except.error PyErr.devConn ∧
    (Tgf4000.write command SendEv.ok).result = Except.ok () ∧
    (Tgf4000.trans command SendEv.timeout saved evs).result =
      Except.error PyErr.devTimeout ∧
    (Tgf4000.trans command SendEv.sockErr saved evs).result =
      Except.error PyErr.devConn ∧
    ((Tgf4000.read saved evs).outcome = Except.error PyErr.sockError →
      (Tgf4000.trans command SendEv.ok saved evs).result =
        Except.error PyErr.devConn) ∧
    (Tgf4000.read saved [RecvEv.sockErr]).outcome = Except.error PyErr.sockError ∧
    (Tgf4000.read saved [RecvEv.timeout]).outcome = Except.ok [13, 10] ∧
    (Tgf4000.trans command SendEv.ok saved [RecvEv.timeout]).result =
      Except.ok (TransRet.txt []) := by
  refine ⟨rfl, rfl, rfl, rfl, rfl, ?_, ?_, ?_, ?_⟩
  · intro h
    simp only [Tgf4000.trans, h]
  · have h100 : readLoop 100 [RecvEv.sockErr] [] = (Except.error PyErr.sockError, 1) := by
      decide
    simp only [Tgf4000.read, h100]
  · have h100 : readLoop 100 [RecvEv.timeout] [] = (Except.ok [13, 10], 1) := by
      decide
    simp only [Tgf4000.read, h100]
  · have h100 : readLoop 100 [RecvEv.timeout] [] = (Except.ok [13, 10], 1) := by
      decide
    simp only [Tgf4000.trans, Tgf4000.read, h100]
    decide

/-- Witness for C2 at a concrete command and a peer raising a plain socket
error during the read phase of `trans`. -/
theorem socket_error_translation_witness :
    (Tgf4000.read none [RecvEv.sockErr]).outcome = Except.error PyErr.sockError ∧
    (Tgf4000.trans ['A'] SendEv.ok none [RecvEv.sockErr]).result =
      Except.error PyErr.devConn :=
  ⟨by decide,
    (socket_error_translation ['A'] none [RecvEv.sockErr]).2.2.2.2.2.1 (by decide)⟩

/-- Test whether a string ends with exactly one trailing newline: the last
character is a newline and the one before it (if any) is not. -/
def endsWithExactlyOneNL (s : List Char) : Bool :=
  s.getLast? == some '\n' && !(s.dropLast.getLast? == some '\n')

/-- C3 counterexample: a command that already ends in two newlines is sent
unchanged, so the bytes sent do not end with exactly one trailing newline. -/
theorem sent_bytes_not_exactly_one_newline :
    (Tgf4000.write ['A', '\n', '\n'] SendEv.ok).sent = ['A', '\n', '\n'] ∧
    endsWithExactlyOneNL (Tgf4000.write ['A', '\n', '\n'] SendEv.ok).sent = false := by
  constructor <;> decide

/-- C3 (amended): `write` and `trans` send exactly the command followed by
one newline when the command does not already end with a newline, and send
the command unchanged when it does; in both cases the bytes sent end with a
trailing newline (exactly one is appended when missing, but a command that
already ends in several newlines is sent as is). -/
theorem write_trans_line_terminator (command : List Char) (evW evT : SendEv)
    (saved : Option ℚ) (evs : List RecvEv) :
    (pyEndswithNL command = false →
      (Tgf4000.write command evW).sent = command ++ ['\n'] ∧
      (Tgf4000.trans command evT saved evs).sent = command ++ ['\n']) ∧
    (pyEndswithNL command = true →
      (Tgf4000.write command evW).sent = command ∧
      (Tgf4000.trans command evT saved evs).sent = command) ∧
    ((Tgf4000.write command evW).sent).getLast? = some '\n' ∧
    ((Tgf4000.trans command evT saved evs).sent).getLast? = some '\n' := by
  have hsentW : (Tgf4000.write command evW).sent = Tgf4000.sentBytes command := rfl
  have hsentT : (Tgf4000.trans command evT saved evs).sent =
      Tgf4000.sentBytes command := rfl
  refine ⟨?_, ?_, ?_, ?_⟩
  · intro h
    rw [hsentW, hsentT, Tgf4000.sentBytes, h]
    simp
  · intro h
    rw [hsentW, hsentT, Tgf4000.sentBytes, h]
    simp
  · rw [hsentW, Tgf4000.sentBytes]
    rcases h : pyEndswithNL command with _ | _
    · simp [List.getLast?_concat]
    · simpa [pyEndswithNL] using h
  · rw [hsentT, Tgf4000.sentBytes]
    rcases h : pyEndswithNL command with _ | _
    · simp [List.getLast?_concat]
    · simpa [pyEndswithNL] using h

/-- Witness for C3 at the concrete command `"*IDN?"`, which does not end with
a newline. -/
theorem write_trans_line_terminator_witness :
    pyEndswithNL ['*', 'I', 'D', 'N', '?'] = false ∧
    (Tgf4000.write ['*', 'I', 'D', 'N', '?'] SendEv.ok).sent =
      ['*', 'I', 'D', 'N', '?'] ++ ['\n'] ∧
    (Tgf4000.trans ['*', 'I', 'D', 'N', '?'] SendEv.ok none []).sent =
      ['*', 'I', 'D', 'N', '?'] ++ ['\n'] := by
  have h := (write_trans_line_terminator ['*', 'I', 'D', 'N', '?'] SendEv.ok
    SendEv.ok none []).1 (by decide)
  exact ⟨by decide, h.1, h.2⟩

/-! ## Simulator and protocol (tgf4000.py `Tgf4000Simulator` lines 4147-4372,
tgf4000_protocol.py `Tgf4000Protocol` lines 29-119) -/

/-- Waveform types (`Waveform` enumeration, aim_tti/__init__.py). -/
inductive Waveform where
  | SINE | SQUARE | RAMP | RAMPUP | RAMPDOWN | TRIANGULAR | PULSE | NOISE
  | PRBSPN7 | PRBSPN9 | PRBSPN11 | PRBSPN15 | PRBSPN20 | PRBSPN23
  | PRBSPN29 | PRBSPN31 | ARBITRARY
deriving DecidableEq

/-- Output states (`Output` enumeration, aim_tti/__init__.py). -/
inductive Output where
  | ON | OFF | NORMAL | INVERT
deriving DecidableEq

/-- Counter sources (`CounterSource` enumeration, aim_tti/__init__.py). -/
inductive CounterSource where
  | AC | DC
deriving DecidableEq

/-- Counter types (`CounterType` enumeration, aim_tti/__init__.py). -/
inductive CounterType where
  | FREQUENCY | PERIOD | WIDTH | NWIDTH | DUTY
deriving DecidableEq

/-- The `output_load` attribute of the simulator.  It is initialised to the
two-channel list `[None, None]`, but `set_output_load` assigns the plain
float argument to the attribute, so the attribute can also hold a scalar. -/
inductive LoadAttr where
  | lst (p : Option ℚ × Option ℚ)
  | scalar (q : ℚ)
deriving DecidableEq

/-- Reading index `i` of a two-element Python list: Python indices 0 and 1
address the elements, -1 and -2 wrap around from the end, anything else
raises `IndexError` (`none`). -/
def pyGet2 (p : α × α) (i : Int) : Option α :=
  if i = 0 ∨ i = -2 then some p.1
  else if i = 1 ∨ i = -1 then some p.2
  else none

/-- Writing index `i` of a two-element Python list, with the same index
semantics as `pyGet2`. -/
def pySet2 (p : α × α) (i : Int) (v : α) : Option (α × α) :=
  if i = 0 ∨ i = -2 then some (v, p.2)
  else if i = 1 ∨ i = -1 then some (p.1, v)
  else none

/-- State of a `Tgf4000Simulator` (tgf4000.py lines 4147-4183): the selected
channel and the per-channel attribute lists, each initialised in
`__init__`.  Stored floats are modelled as `ℚ`, the unspecified `arb`
entries as `Option Unit`, and the four `arbN` strings as
`Option (List Char)`. -/
structure SimState where
  device_id : List Char
  _is_connected : Bool
  channel : Int
  waveform_type : Option Waveform × Option Waveform
  output_load : LoadAttr
  amplitude : Option ℚ × Option ℚ
  dc_offset : Option ℚ × Option ℚ
  duty_cycle : Option ℚ × Option ℚ
  frequency : Option ℚ × Option ℚ
  output_status : Output × Output
  arb : Option Unit × Option Unit
  arb1 : Option (List Char)
  arb2 : Option (List Char)
  arb3 : Option (List Char)
  arb4 : Option (List Char)
  counter_status : Output × Output
  counter_source : CounterSource × CounterSource
  counter_type : CounterType × CounterType
deriving DecidableEq

/-- The state built by `Tgf4000Simulator.__init__` (tgf4000.py lines
4147-4183). -/
def simInit (device_id : List Char) : SimState :=
  { device_id := device_id
    _is_connected := true
    channel := -1
    waveform_type := (none, none)
    output_load := LoadAttr.lst (none, none)
    amplitude := (none, none)
    dc_offset := (none, none)
    duty_cycle := (none, none)
    frequency := (none, none)
    output_status := (Output.OFF, Output.OFF)
    arb := (none, none)
    arb1 := none
    arb2 := none
    arb3 := none
    arb4 := none
    counter_status := (Output.OFF, Output.OFF)
    counter_source := (CounterSource.AC, CounterSource.AC)
    counter_type := (CounterType.FREQUENCY, CounterType.FREQUENCY) }

/-- `Tgf4000Simulator.set_channel` (line 4188). -/
def SimState.set_channel (s : SimState) (channel : Int) : SimState :=
  { s with channel := channel }

/-- `Tgf4000Simulator.get_channel` (line 4191). -/
def SimState.get_channel (s : SimState) : Int :=
  s.channel

/-- `Tgf4000Simulator.set_waveform_type` (line 4194):
`self.waveform_type[self.get_channel() - 1] = waveform_type`. -/
def SimState.set_waveform_type (s : SimState) (waveform_type : Waveform) :
    Option SimState :=
  (pySet2 s.waveform_type (s.get_channel - 1) (some waveform_type)).map
    (fun p => { s with waveform_type := p })

/-- `Tgf4000Simulator.get_waveform_type` (line 4197). -/
def SimState.get_waveform_type (s : SimState) : Option (Option Waveform) :=
  pyGet2 s.waveform_type (s.get_channel - 1)

/-- `Tgf4000Simulator.set_output_load` (line 4200): `self.output_load = load`
assigns the scalar to the attribute, replacing the two-channel list. -/
def SimState.set_output_load (s : SimState) (load : ℚ) : SimState :=
  { s with output_load := LoadAttr.scalar load }

/-- `Tgf4000Simulator.get_output_load` (line 4203):
`self.output_load[self.get_channel() - 1]`; indexing a scalar raises
`TypeError` (`none`). -/
def SimState.get_output_load (s : SimState) : Option (Option ℚ) :=
  match s.output_load with
  | LoadAttr.lst p => pyGet2 p (s.get_channel - 1)
  | LoadAttr.scalar _ => none

/-- `Tgf4000Simulator.set_amplitude` (line 4206). -/
def SimState.set_amplitude (s : SimState) (amplitude : ℚ) : Option SimState :=
  (pySet2 s.amplitude (s.get_channel - 1) (some amplitude)).map
    (fun p => { s with amplitude := p })

/-- `Tgf4000Simulator.get_amplitude` (line 4209). -/
def SimState.get_amplitude (s : SimState) : Option (Option ℚ) :=
  pyGet2 s.amplitude (s.get_channel - 1)

/-- `Tgf4000Simulator.set_dc_offset` (line 4212). -/
def SimState.set_dc_offset (s : SimState) (offset : ℚ) : Option SimState :=
  (pySet2 s.dc_offset (s.get_channel - 1) (some offset)).map
    (fun p => { s with dc_offset := p })

/-- `Tgf4000Simulator.get_dc_offset` (line 4215). -/
def SimState.get_dc_offset (s : SimState) : Option (Option ℚ) :=
  pyGet2 s.dc_offset (s.get_channel - 1)

/-- `Tgf4000Simulator.set_duty_cycle` (line 4218). -/
def SimState.set_duty_cycle (s : SimState) (duty_cycle : ℚ) : Option SimState :=
  (pySet2 s.duty_cycle (s.get_channel - 1) (some duty_cycle)).map
    (fun p => { s with duty_cycle := p })

/-- `Tgf4000Simulator.get_duty_cycle` (line 4221). -/
def SimState.get_duty_cycle (s : SimState) : Option (Option ℚ) :=
  pyGet2 s.duty_cycle (s.get_channel - 1)

/-- `Tgf4000Simulator.set_frequency` (line 4224). -/
def SimState.set_frequency (s : SimState) (frequency : ℚ) : Option SimState :=
  (pySet2 s.frequency (s.get_channel - 1) (some frequency)).map
    (fun p => { s with frequency := p })

/-- `Tgf4000Simulator.get_frequency` (line 4227). -/
def SimState.get_frequency (s : SimState) : Option (Option ℚ) :=
  pyGet2 s.frequency (s.get_channel - 1)

/-- `Tgf4000Simulator.set_output_status` (line 4230). -/
def SimState.set_output_status (s : SimState) (output_status : Output) :
    Option SimState :=
  (pySet2 s.output_status (s.get_channel - 1) output_status).map
    (fun p => { s with output_status := p })

/-- `Tgf4000Simulator.get_output_status` (line 4233). -/
def SimState.get_output_status (s : SimState) : Option Output :=
  pyGet2 s.output_status (s.get_channel - 1)

/-- `Tgf4000Simulator.connect` (line 4359). -/
def SimState.connect (s : SimState) : SimState :=
  { s with _is_connected := true }

/-- State of a `Tgf4000Controller` (tgf4000.py lines 4087-4144); its
transport is an external socket and is not part of the state the claims
observe. -/
structure CtrlState where
  device_id : List Char
deriving DecidableEq

/-- The device backend held by a `Tgf4000Protocol`: a `Tgf4000Simulator` or a
`Tgf4000Controller`. -/
inductive Tgf4000Backend where
  | simulator (s : SimState)
  | controller (c : CtrlState)
deriving DecidableEq

/-- Dynamic dispatch of `is_simulator`: `Tgf4000Simulator.is_simulator`
returns `True` (line 4371), `Tgf4000Controller.is_simulator` returns `False`
(line 4111). -/
def Tgf4000Backend.is_simulator : Tgf4000Backend → Bool
  | Tgf4000Backend.simulator _ => true
  | Tgf4000Backend.controller _ => false

/-- State of a `Tgf4000Protocol` relevant to the claims: the `simulator`
flag and the `tgf4000` backend. -/
structure Tgf4000ProtocolState where
  simulator : Bool
  tgf4000 : Tgf4000Backend
deriving DecidableEq

/-- Shallow embedding of `Tgf4000Protocol.__init__` (tgf4000_protocol.py
lines 32-60): with `simulator=True` the backend is a
`Tgf4000Simulator(device_id)`, otherwise a `Tgf4000Controller(device_id)`;
`__init__` then calls `connect()` on the backend (for the simulator this sets
`_is_connected`; for the controller it touches only the external socket, and
a `ConnectionError` is caught and logged).  The housekeeping table is
irrelevant to the claims and omitted. -/
def Tgf4000Protocol.init (device_id : List Char) (simulator : Bool) :
    Tgf4000ProtocolState :=
  let backend :=
    if simulator then Tgf4000Backend.simulator (simInit device_id)
    else Tgf4000Backend.controller { device_id := device_id }
  { simulator := simulator
    tgf4000 :=
      match backend with
      | Tgf4000Backend.simulator s => Tgf4000Backend.simulator s.connect
      | Tgf4000Backend.controller c => Tgf4000Backend.controller c }

/-- `Tgf4000Protocol.get_device` (tgf4000_protocol.py lines 71-78). -/
def Tgf4000Protocol.get_device (p : Tgf4000ProtocolState) : Tgf4000Backend :=
  p.tgf4000

/-- C7: a protocol constructed with `simulator=True` uses a
`Tgf4000Simulator` as its device backend, one constructed with
`simulator=False` uses a `Tgf4000Controller`; `get_device()` returns that
backend, and the backend's `is_simulator()` returns `True` exactly in the
simulator case. -/
theorem protocol_simulator_substitution (device_id : List Char) :
    Tgf4000Protocol.get_device (Tgf4000Protocol.init device_id true) =
      Tgf4000Backend.simulator ((simInit device_id).connect) ∧
    Tgf4000Protocol.get_device (Tgf4000Protocol.init device_id false) =
      Tgf4000Backend.controller { device_id := device_id } ∧
    (Tgf4000Protocol.get_device (Tgf4000Protocol.init device_id true)).is_simulator
      = true ∧
    (Tgf4000Protocol.get_device (Tgf4000Protocol.init device_id false)).is_simulator
      = false :=
  ⟨rfl, rfl, rfl, rfl⟩

/-- C10 (code bug): after `set_channel(1)`, `set_amplitude` (like the other
per-channel setters) stores its value in the slot of channel 1 and leaves the
slot of channel 2 unchanged, but `set_output_load` assigns the scalar to the
`output_load` attribute itself, destroying the two-channel list, after which
`get_output_load` raises `TypeError`. -/
theorem simulator_output_load_type_error :
    (((simInit ['T']).set_channel 1).set_amplitude 2).map SimState.get_amplitude =
      some (some (some 2)) ∧
    (((simInit ['T']).set_channel 1).set_amplitude 2).map (fun s => s.amplitude.2) =
      some none ∧
    ((simInit ['T']).set_channel 1).output_load = LoadAttr.lst (none, none) ∧
    (((simInit ['T']).set_channel 1).set_output_load 50).output_load =
      LoadAttr.scalar 50 ∧
    (((simInit ['T']).set_channel 1).set_output_load 50).get_output_load = none := by
  refine ⟨?_, ?_, rfl, rfl, rfl⟩ <;> decide

/-! ## ArbData (aim_tti/__init__.py, `ArbData`) -/

/-- Value of one hexadecimal digit character, as accepted by `int(x, 16)`. -/
def hexDigitVal (c : Char) : Option Nat :=
  if 48 ≤ c.toNat ∧ c.toNat ≤ 57 then some (c.toNat - 48)
  else if 65 ≤ c.toNat ∧ c.toNat ≤ 70 then some (c.toNat - 55)
  else if 97 ≤ c.toNat ∧ c.toNat ≤ 102 then some (c.toNat - 87)
  else none

/-- Accumulating value of a string of hexadecimal digits, most significant
first. -/
def hexValAux (acc : Nat) : List Char → Option Nat
  | [] => some acc
  | c :: rest =>
    match hexDigitVal c with
    | none => none
    | some d => hexValAux (16 * acc + d) rest

/-- Python `int(hex_number, 16)` restricted to non-empty plain hexadecimal
digit strings; `none` models `ValueError`. -/
def hexVal : List Char → Option Nat
  | [] => none
  | s => hexValAux 0 s

/-- `int(np.int16(u))`: `np.int16` wraps modulo 2^16 into the signed 16-bit
range (e.g. 0xFFFF becomes -1). -/
def npInt16 (u : Nat) : Int :=
  if u % 65536 < 32768 then ((u % 65536 : Nat) : Int)
  else ((u % 65536 : Nat) : Int) - 65536

/-- Shallow embedding of `ArbData.array_from_hex_string` (aim_tti/__init__.py
lines 127-160): remove the blanks with `.replace(" ", "").strip()`, set
`num_hex_numbers = len // 4`, and for each index read the four-character
slice `hex_string[4*index : 4*index + 4]`, convert with `int(.., 16)` and
fold through `np.int16`; `none` models the `ValueError` of `int` on a
non-hexadecimal group. -/
def array_from_hex_string (hex_string : List Char) : Option (List Int) :=
  let hs := pyStrip (pyReplace [' '] [] hex_string)
  let num_hex_numbers := hs.length / 4
  optionMapList
    (fun index => (hexVal ((hs.drop (4 * index)).take 4)).map npInt16)
    (List.range num_hex_numbers)

/-- The claim's reading of `array_from_hex_string`: consecutive groups of
four hexadecimal characters, a trailing incomplete group dropped, each group
mapped to its signed 16-bit value (values at or above 0x8000 fold to
negatives). -/
def hexChunks4 : List Char → Option (List Int)
  | c1 :: c2 :: c3 :: c4 :: rest =>
    match hexVal [c1, c2, c3, c4], hexChunks4 rest with
    | some u, some vs =>
      some ((if u < 32768 then (u : Int) else (u : Int) - 65536) :: vs)
    | _, _ => none
  | _ => some []

/-- A hexadecimal digit is at most 15. -/
theorem hexDigitVal_le (c : Char) (d : Nat) (h : hexDigitVal c = some d) :
    d ≤ 15 := by
  unfold hexDigitVal at h
  split at h
  · rename_i hb
    injection h with h
    omega
  · split at h
    · rename_i hb
      injection h with h
      omega
    · split at h
      · rename_i hb
        injection h with h
        omega
      · exact absurd h (by simp)

/-- Bound on the accumulated value of a hexadecimal digit string. -/
theorem hexValAux_lt (s : List Char) :
    ∀ acc u, hexValAux acc s = some u → u < (acc + 1) * 16 ^ s.length := by
  induction s with
  | nil =>
    intro acc u h
    rw [hexValAux, Option.some.injEq] at h
    subst h
    simp
  | cons c rest ih =>
    intro acc u h
    rw [hexValAux] at h
    rcases hdc : hexDigitVal c with _ | d
    · rw [hdc] at h
      exact absurd h (by simp)
    · rw [hdc] at h
      have hd15 := hexDigitVal_le c d hdc
      have hu := ih (16 * acc + d) u h
      have hstep : (16 * acc + d + 1) * 16 ^ rest.length ≤
          (acc + 1) * 16 ^ (rest.length + 1) := by
        rw [pow_succ]
        calc (16 * acc + d + 1) * 16 ^ rest.length
            ≤ (16 * (acc + 1)) * 16 ^ rest.length := by
              apply Nat.mul_le_mul_right
              omega
          _ = (acc + 1) * (16 ^ rest.length * 16) := by ring
      calc u < (16 * acc + d + 1) * 16 ^ rest.length := hu
        _ ≤ (acc + 1) * 16 ^ (rest.length + 1) := hstep
        _ = (acc + 1) * 16 ^ (c :: rest).length := by rw [List.length_cons]

/-- The value of a four-character hexadecimal group is below 2^16. -/
theorem hexVal4_lt (c1 c2 c3 c4 : Char) (u : Nat)
    (h : hexVal [c1, c2, c3, c4] = some u) : u < 65536 := by
  have h1 := hexValAux_lt [c1, c2, c3, c4] 0 u h
  have h2 : (0 + 1) * 16 ^ ([c1, c2, c3, c4] : List Char).length = 65536 := by
    norm_num
  rw [h2] at h1
  exact h1

/-- Dropping nothing: `dropWhile` is the identity when no element satisfies
the predicate. -/
theorem dropWhile_eq_self_of (p : α → Bool) (l : List α)
    (h : ∀ c ∈ l, p c = false) : l.dropWhile p = l := by
  cases l with
  | nil => rfl
  | cons c rest =>
    rw [List.dropWhile_cons_of_neg]
    rw [h c (List.mem_cons_self c rest)]
    simp

/-- `rdropWhile` is likewise the identity. -/
theorem rdropWhile_eq_self_of (p : α → Bool) (l : List α)
    (h : ∀ c ∈ l, p c = false) : l.rdropWhile p = l := by
  rw [List.rdropWhile, dropWhile_eq_self_of p l.reverse
    (fun c hc => h c (List.mem_reverse.mp hc)), List.reverse_reverse]

/-- Python `strip()` is the identity on whitespace-free strings. -/
theorem pyStrip_of_no_space (t : List Char)
    (h : ∀ c ∈ t, pyIsSpace c = false) : pyStrip t = t := by
  rw [pyStrip, dropWhile_eq_self_of pyIsSpace t h, rdropWhile_eq_self_of pyIsSpace t h]

/-- Mapping before converting. -/
theorem optionMapList_map (f : β → Option γ) (g : α → β) (l : List α) :
    optionMapList f (l.map g) = optionMapList (fun x => f (g x)) l := by
  induction l with
  | nil => rfl
  | cons x rest ih => simp only [List.map_cons, optionMapList, ih]

/-- Pointwise equal conversions convert lists equally. -/
theorem optionMapList_congr (f g : α → Option β) (l : List α)
    (h : ∀ x ∈ l, f x = g x) : optionMapList f l = optionMapList g l := by
  induction l with
  | nil => rfl
  | cons x rest ih =>
    simp only [optionMapList, h x (List.mem_cons_self x rest),
      ih (fun y hy => h y (List.mem_cons_of_mem _ hy))]

/-- The indexed four-character slices of the loop in `array_from_hex_string`
are exactly the consecutive four-character groups. -/
theorem hex_chunks_equiv (n : Nat) :
    ∀ (t : List Char), t.length ≤ n →
      optionMapList
        (fun index => (hexVal ((t.drop (4 * index)).take 4)).map npInt16)
        (List.range (t.length / 4)) = hexChunks4 t := by
  induction n with
  | zero =>
    intro t ht
    have ht0 : t = [] := List.length_eq_zero.mp (Nat.le_zero.mp ht)
    subst ht0
    have h0 : hexChunks4 [] = some [] := rfl
    rw [h0]
    norm_num [optionMapList]
  | succ n ih =>
    intro t ht
    match t with
    | [] =>
      have h0 : hexChunks4 [] = some [] := rfl
      rw [h0]
      norm_num [optionMapList]
    | [c1] =>
      have h0 : hexChunks4 [c1] = some [] := rfl
      rw [h0]
      norm_num [optionMapList]
    | [c1, c2] =>
      have h0 : hexChunks4 [c1, c2] = some [] := rfl
      rw [h0]
      norm_num [optionMapList]
    | [c1, c2, c3] =>
      have h0 : hexChunks4 [c1, c2, c3] = some [] := rfl
      rw [h0]
      norm_num [optionMapList]
    | c1 :: c2 :: c3 :: c4 :: rest =>
      have hdiv : (c1 :: c2 :: c3 :: c4 :: rest).length / 4 = rest.length / 4 + 1 := by
        simp only [List.length_cons]
        omega
      have htake : ((c1 :: c2 :: c3 :: c4 :: rest).drop (4 * 0)).take 4 =
          [c1, c2, c3, c4] := rfl
      have hdrop : ∀ i : Nat,
          (c1 :: c2 :: c3 :: c4 :: rest).drop (4 * (i + 1)) = rest.drop (4 * i) := by
        intro i
        have e1 : 4 * (i + 1) = (4 * i + 3) + 1 := by ring
        rw [e1, List.drop_succ_cons]
        have e2 : 4 * i + 3 = (4 * i + 2) + 1 := by ring
        rw [e2, List.drop_succ_cons]
        have e3 : 4 * i + 2 = (4 * i + 1) + 1 := by ring
        rw [e3, List.drop_succ_cons, List.drop_succ_cons]
      have hrest : rest.length ≤ n := by
        simp only [List.length_cons] at ht
        omega
      rw [hdiv, List.range_succ_eq_map]
      simp only [optionMapList, optionMapList_map, htake]
      rw [optionMapList_congr
        (fun x => (hexVal (((c1 :: c2 :: c3 :: c4 :: rest).drop (4 * Nat.succ x)).take 4)).map
          npInt16)
        (fun index => (hexVal ((rest.drop (4 * index)).take 4)).map npInt16)
        (List.range (rest.length / 4))
        (fun i _ => by simp only [Nat.succ_eq_add_one, hdrop i]), ih rest hrest]
      rcases hu : hexVal [c1, c2, c3, c4] with _ | u <;>
        rcases hvs : hexChunks4 rest with _ | vs <;>
        simp only [hexChunks4, hu, hvs, Option.map_none', Option.map_some',
          Option.some.injEq, List.cons.injEq, and_true]
      rw [npInt16, Nat.mod_eq_of_lt (hexVal4_lt c1 c2 c3 c4 u hu)]

/-- Hexadecimal digit characters are not whitespace. -/
theorem hex_digit_not_space (c : Char) (h : hexDigitVal c ≠ none) :
    pyIsSpace c = false := by
  have hb : (48 ≤ c.toNat ∧ c.toNat ≤ 57) ∨ (65 ≤ c.toNat ∧ c.toNat ≤ 70) ∨
      (97 ≤ c.toNat ∧ c.toNat ≤ 102) := by
    unfold hexDigitVal at h
    split at h
    · rename_i h1
      exact Or.inl h1
    · split at h
      · rename_i h2
        exact Or.inr (Or.inl h2)
      · split at h
        · rename_i h3
          exact Or.inr (Or.inr h3)
        · exact absurd rfl h
  have hsp : c ≠ ' ' ∧ c ≠ '\t' ∧ c ≠ '\n' ∧ c ≠ '\r' ∧ c ≠ '\x0b' ∧ c ≠ '\x0c' := by
    refine ⟨?_, ?_, ?_, ?_, ?_, ?_⟩ <;> rintro rfl <;> revert hb <;> decide
  obtain ⟨h1, h2, h3, h4, h5, h6⟩ := hsp
  simp [pyIsSpace, h1, h2, h3, h4, h5, h6]

/-- C9: `array_from_hex_string` parses its input as consecutive groups of
four hexadecimal characters after removing all blanks, mapping each group to
its signed 16-bit value (values at or above 0x8000 fold to negatives) and
dropping trailing characters that do not form a complete group of four; in
particular `"0001 0002 0003"` and `"000100020003"` both yield `[1, 2, 3]`,
`"FFFF"` yields `[-1]` and `"8001"` yields `[-32767]`. -/
theorem array_from_hex_string_groups :
    (∀ (hex_string : List Char),
      (∀ c ∈ hex_string, hexDigitVal c ≠ none ∨ c = ' ') →
      array_from_hex_string hex_string =
        hexChunks4 (hex_string.filter (fun c => !(c == ' ')))) ∧
    array_from_hex_string
      ['0', '0', '0', '1', ' ', '0', '0', '0', '2', ' ', '0', '0', '0', '3'] =
      some [1, 2, 3] ∧
    array_from_hex_string
      ['0', '0', '0', '1', '0', '0', '0', '2', '0', '0', '0', '3'] =
      some [1, 2, 3] ∧
    array_from_hex_string ['F', 'F', 'F', 'F'] = some [-1] ∧
    array_from_hex_string ['8', '0', '0', '1'] = some [-32767] := by
  have hgen : ∀ (hex_string : List Char),
      (∀ c ∈ hex_string, hexDigitVal c ≠ none ∨ c = ' ') →
      array_from_hex_string hex_string =
        hexChunks4 (hex_string.filter (fun c => !(c == ' '))) := by
    intro hex_string hgood
    have hrep := pyReplace_single_char ' ' hex_string
    have hnospace : ∀ c ∈ hex_string.filter (fun c => !(c == ' ')),
        pyIsSpace c = false := by
      intro c hc
      rw [List.mem_filter] at hc
      obtain ⟨hcs, hne⟩ := hc
      rcases hgood c hcs with hhex | rfl
      · exact hex_digit_not_space c hhex
      · simp at hne
    simp only [array_from_hex_string]
    rw [hrep, pyStrip_of_no_space _ hnospace]
    exact hex_chunks_equiv (hex_string.filter (fun c => !(c == ' '))).length
      (hex_string.filter (fun c => !(c == ' '))) le_rfl
  refine ⟨hgen, ?_, ?_, ?_, ?_⟩ <;> rw [hgen _ (by decide)] <;> decide

/-- Witness for C9 at the concrete input `"FFFF"`. -/
theorem array_from_hex_string_groups_witness :
    (∀ c ∈ (['F', 'F', 'F', 'F'] : List Char), hexDigitVal c ≠ none ∨ c = ' ') ∧
    array_from_hex_string ['F', 'F', 'F', 'F'] =
      hexChunks4 ((['F', 'F', 'F', 'F'] : List Char).filter (fun c => !(c == ' '))) :=
  ⟨by decide, array_from_hex_string_groups.1 ['F', 'F', 'F', 'F'] (by decide)⟩

/-- `number.to_bytes(2, byteorder="big", signed=True)` (used by
`ArbData.array_as_bytes`, aim_tti/__init__.py line 208): the two big-endian
bytes of the two's-complement representation; `none` models the
`OverflowError` outside the signed 16-bit range. -/
def intToBytes2 (v : Int) : Option (List Nat) :=
  if -32768 ≤ v ∧ v ≤ 32767 then
    some [(v % 65536).toNat / 256, (v % 65536).toNat % 256]
  else none

/-- `int.from_bytes(two bytes, byteorder="big", signed=True)` (used by
`ArbData.array_from_bytes`, aim_tti/__init__.py line 230). -/
def intFromBytes2 (b1 b2 : Nat) : Int :=
  if 256 * b1 + b2 < 32768 then ((256 * b1 + b2 : Nat) : Int)
  else ((256 * b1 + b2 : Nat) : Int) - 65536

/-- `ArbData.array_as_bytes` (aim_tti/__init__.py lines 199-210): concatenate
the two-byte big-endian signed encoding of every array entry. -/
def array_as_bytes : List Int → Option (List Nat)
  | [] => some []
  | v :: rest =>
    match intToBytes2 v, array_as_bytes rest with
    | some b, some bs => some (b ++ bs)
    | _, _ => none

/-- `str(n)` as byte values, digits most significant first. -/
def decimalStr (n : Nat) : List Nat :=
  if n = 0 then [48] else ((Nat.digits 10 n).map (fun d => d + 48)).reverse

/-- `ArbData.string` (aim_tti/__init__.py lines 162-197): the `"#"` header
byte, the length of the byte-count numeral (formatted with `{0:1d}`, i.e.
MINIMUM width one), the byte count of the payload, then the payload.  The
latin-1 decode/encode pair the source routes the payload through is the
identity on byte values. -/
def ArbData.string (array : List Int) : Option (List Nat) :=
  (array_as_bytes array).map (fun byte_array =>
    35 :: (decimalStr (decimalStr byte_array.length).length ++
      (decimalStr byte_array.length ++ byte_array)))

/-- `ArbData.array_from_bytes` (aim_tti/__init__.py lines 212-232): read
`len // 2` big-endian signed two-byte groups, dropping a trailing odd
byte. -/
def array_from_bytes : List Nat → List Int
  | b1 :: b2 :: rest => intFromBytes2 b1 b2 :: array_from_bytes rest
  | _ => []

/-- `ArbData.init_from_bytestring` (aim_tti/__init__.py lines 89-101): read
the single character at index 1 as the number of digits of the byte count
(`IndexError` on a short string and `ValueError` on a non-digit are modelled
as `none`), skip the header, and parse the remainder with
`array_from_bytes`. -/
def ArbData.init_from_bytestring (bytestring : List Nat) : Option (List Int) :=
  match bytestring.drop 1 with
  | [] => none
  | c :: _ =>
    if 48 ≤ c ∧ c ≤ 57 then
      some (array_from_bytes (bytestring.drop (2 + (c - 48))))
    else none

/-- The two-byte encoding inverts back to the encoded value. -/
theorem intToBytes2_round (v : Int) (b : List Nat) (h : intToBytes2 v = some b) :
    ∃ b1 b2, b = [b1, b2] ∧ intFromBytes2 b1 b2 = v := by
  rw [intToBytes2] at h
  split at h
  · rename_i hr
    rw [Option.some.injEq] at h
    refine ⟨(v % 65536).toNat / 256, (v % 65536).toNat % 256, h.symm, ?_⟩
    rw [intFromBytes2]
    split <;> omega
  · exact absurd h (by simp)

/-- Decoding the concatenated two-byte encodings restores the array; the
payload has two bytes per entry. -/
theorem array_as_bytes_round (a : List Int) :
    ∀ bs, array_as_bytes a = some bs →
      array_from_bytes bs = a ∧ bs.length = 2 * a.length := by
  induction a with
  | nil =>
    intro bs h
    rw [array_as_bytes, Option.some.injEq] at h
    subst h
    exact ⟨rfl, rfl⟩
  | cons v rest ih =>
    intro bs h
    rw [array_as_bytes] at h
    split at h
    · rename_i b bs2 hb hbs2
      rw [Option.some.injEq] at h
      subst h
      obtain ⟨b1, b2, rfl, hinv⟩ := intToBytes2_round v b hb
      obtain ⟨h1, h2⟩ := ih bs2 hbs2
      constructor
      · show array_from_bytes (b1 :: b2 :: bs2) = v :: rest
        rw [array_from_bytes, hinv, h1]
      · rw [List.length_append, h2]
        simp only [List.length_cons, List.length_nil]
        omega
    · exact absurd h (by simp)

/-- Arrays of signed 16-bit values encode without overflow. -/
theorem array_as_bytes_total (a : List Int)
    (h : ∀ v ∈ a, -32768 ≤ v ∧ v ≤ 32767) : ∃ bs, array_as_bytes a = some bs := by
  induction a with
  | nil => exact ⟨[], rfl⟩
  | cons v rest ih =>
    obtain ⟨bs2, hbs2⟩ := ih (fun x hx => h x (List.mem_cons_of_mem _ hx))
    have hv := h v (List.mem_cons_self v rest)
    refine ⟨[(v % 65536).toNat / 256, (v % 65536).toNat % 256] ++ bs2, ?_⟩
    rw [array_as_bytes, intToBytes2, if_pos hv, hbs2]

/-- `str(n)` is never empty. -/
theorem decimalStr_pos (n : Nat) : 1 ≤ (decimalStr n).length := by
  rw [decimalStr]
  split
  · simp
  · rename_i hn
    have hne : Nat.digits 10 n ≠ [] := Nat.digits_ne_nil_iff_ne_zero.mpr hn
    rcases hd : Nat.digits 10 n with _ | ⟨a, l⟩
    · exact absurd hd hne
    · simp [hd]

/-- Numbers below one billion print with at most nine digits. -/
theorem decimalStr_length_le_nine (L : Nat) (h : L < 1000000000) :
    (decimalStr L).length ≤ 9 := by
  rw [decimalStr]
  split
  · simp
  · rename_i hn
    rw [List.length_reverse, List.length_map, Nat.digits_len 10 L (by norm_num) hn]
    have hpow : L < 10 ^ 9 := by norm_num [h]
    have hlog : Nat.log 10 L < 9 := (Nat.lt_pow_iff_log_lt (by norm_num) hn).mp hpow
    omega

/-- A single digit prints as itself. -/
theorem decimalStr_single (d : Nat) (h1 : 1 ≤ d) (h2 : d ≤ 9) :
    decimalStr d = [d + 48] := by
  rw [decimalStr, if_neg (by omega), Nat.digits_of_lt 10 d (by omega) (by omega)]
  rfl

/-- Parsing a well-formed header whose byte-count numeral has at most nine
digits skips the header and decodes the payload. -/
theorem init_from_bytestring_header (d : Nat) (hd : d ≤ 9) (S P : List Nat)
    (hS : S.length = d) :
    ArbData.init_from_bytestring (35 :: ((d + 48) :: (S ++ P))) =
      some (array_from_bytes P) := by
  show (if 48 ≤ d + 48 ∧ d + 48 ≤ 57 then
      some (array_from_bytes
        ((35 :: ((d + 48) :: (S ++ P))).drop (2 + (d + 48 - 48))))
    else none) = some (array_from_bytes P)
  rw [if_pos (by omega)]
  have h2 : 2 + (d + 48 - 48) = d + 1 + 1 := by omega
  rw [h2, List.drop_succ_cons, List.drop_succ_cons, ← hS, List.drop_left]

/-- C8 (amended): for every list of signed 16-bit integers of length below
500000000 — so that the payload byte count has at most nine digits and its
digit count fits the single header character read back — encoding with
`ArbData.string` and decoding with `init_from_bytestring` restores the
array. -/
theorem arbdata_string_roundtrip (a : List Int)
    (hrange : ∀ v ∈ a, -32768 ≤ v ∧ v ≤ 32767)
    (hlen : a.length < 500000000) :
    (ArbData.string a).bind ArbData.init_from_bytestring = some a := by
  obtain ⟨bs, hbs⟩ := array_as_bytes_total a hrange
  obtain ⟨hinv, hblen⟩ := array_as_bytes_round a bs hbs
  rw [ArbData.string, hbs]
  simp only [Option.map_some', Option.some_bind]
  have hd9 : (decimalStr bs.length).length ≤ 9 := by
    apply decimalStr_length_le_nine
    omega
  rw [decimalStr_single (decimalStr bs.length).length
    (decimalStr_pos bs.length) hd9, List.singleton_append,
    init_from_bytestring_header (decimalStr bs.length).length hd9
      (decimalStr bs.length) bs rfl, hinv]

/-- Witness for C8 at the concrete array `[1, -1]`. -/
theorem arbdata_string_roundtrip_witness :
    (∀ v ∈ ([1, -1] : List Int), -32768 ≤ v ∧ v ≤ 32767) ∧
    ([1, -1] : List Int).length < 500000000 ∧
    (ArbData.string [1, -1]).bind ArbData.init_from_bytestring = some [1, -1] :=
  ⟨by decide, by decide, arbdata_string_roundtrip [1, -1] (by decide) (by decide)⟩

/-- Encoding an all-zero array yields an all-zero payload of twice the
length. -/
theorem array_as_bytes_replicate_zero (n : Nat) :
    array_as_bytes (List.replicate n 0) = some (List.replicate (2 * n) 0) := by
  induction n with
  | zero => rfl
  | succ k ih =>
    rw [List.replicate_succ, array_as_bytes, ih]
    have h0 : intToBytes2 0 = some [0, 0] := by decide
    rw [h0]
    have h2 : (2 : Nat) * (k + 1) = 2 + 2 * k := by ring
    rw [h2, List.replicate_add]
    rfl

/-- Fuel-indexed form of the length of a decoded byte string. -/
theorem array_from_bytes_length_aux (n : Nat) :
    ∀ (l : List Nat), l.length ≤ n →
      (array_from_bytes l).length = l.length / 2 := by
  induction n with
  | zero =>
    intro l hl
    have hnil : l = [] := List.length_eq_zero.mp (Nat.le_zero.mp hl)
    subst hnil
    decide
  | succ k ih =>
    intro l hl
    match l with
    | [] => decide
    | [b] => norm_num [array_from_bytes]
    | b1 :: b2 :: rest =>
      rw [array_from_bytes, List.length_cons,
        ih rest (by simp only [List.length_cons] at hl; omega)]
      simp only [List.length_cons]
      omega

/-- A decoded byte string has half as many entries as bytes. -/
theorem array_from_bytes_length (l : List Nat) :
    (array_from_bytes l).length = l.length / 2 :=
  array_from_bytes_length_aux l.length l le_rfl

/-- `str(10)` is the two characters `"10"`. -/
theorem decimalStr_ten : decimalStr 10 = [49, 48] := by
  rw [decimalStr, if_neg (by norm_num),
    Nat.digits_def' (by norm_num : (1 : Nat) < 10) (by norm_num : (0 : Nat) < 10)]
  norm_num

/-- `str(1000000000)` has ten characters. -/
theorem decimalStr_pow9_len : (decimalStr 1000000000).length = 10 := by
  have t1 : (decimalStr 1000000000).length = (Nat.digits 10 1000000000).length := by
    rw [decimalStr, if_neg (by norm_num), List.length_reverse, List.length_map]
  have t2 : (Nat.digits 10 1000000000).length = Nat.log 10 1000000000 + 1 :=
    Nat.digits_len 10 1000000000 (by norm_num) (by norm_num)
  have t3 : Nat.log 10 1000000000 = 9 := by
    have h9 : (1000000000 : Nat) = 10 ^ 9 := by norm_num
    rw [h9, Nat.log_pow (by norm_num)]
  rw [t1, t2, t3]

/-- C8 counterexample: at an array of 500000000 entries the payload is
1000000000 bytes, the byte-count numeral has ten digits, so the length of
that numeral (`"10"`) no longer fits the single header character that
`init_from_bytestring` reads back; the round trip mis-parses and returns a
list of the wrong length. -/
theorem arbdata_string_roundtrip_fails_at_half_billion :
    (ArbData.string (List.replicate 500000000 0)).bind
        ArbData.init_from_bytestring ≠ some (List.replicate 500000000 0) := by
  have hstr : ArbData.string (List.replicate 500000000 0) =
      some (35 :: ([49, 48] ++
        (decimalStr 1000000000 ++ List.replicate 1000000000 0))) := by
    have hbs := array_as_bytes_replicate_zero 500000000
    rw [ArbData.string, hbs]
    simp only [Option.map_some']
    rw [List.length_replicate]
    have h2n : (2 : Nat) * 500000000 = 1000000000 := by norm_num
    rw [h2n, decimalStr_pow9_len, decimalStr_ten]
  have hinit : ArbData.init_from_bytestring
      (35 :: ([49, 48] ++
        (decimalStr 1000000000 ++ List.replicate 1000000000 0))) =
      some (array_from_bytes
        (decimalStr 1000000000 ++ List.replicate 1000000000 0)) := by
    show (if 48 ≤ 49 ∧ 49 ≤ 57 then
        some (array_from_bytes
          ((35 :: ([49, 48] ++
            (decimalStr 1000000000 ++ List.replicate 1000000000 0))).drop
              (2 + (49 - 48))))
      else none) =
      some (array_from_bytes
        (decimalStr 1000000000 ++ List.replicate 1000000000 0))
    rw [if_pos (by norm_num)]
    have hdrop3 : (35 :: ([49, 48] ++
        (decimalStr 1000000000 ++ List.replicate 1000000000 0))).drop
          (2 + (49 - 48)) =
        decimalStr 1000000000 ++ List.replicate 1000000000 0 := rfl
    rw [hdrop3]
  rw [hstr]
  show ArbData.init_from_bytestring
      (35 :: ([49, 48] ++
        (decimalStr 1000000000 ++ List.replicate 1000000000 0))) ≠
    some (List.replicate 500000000 0)
  rw [hinit]
  intro hEq
  rw [Option.some.injEq] at hEq
  have hL := congrArg List.length hEq
  rw [array_from_bytes_length, List.length_append, decimalStr_pow9_len,
    List.length_replicate, List.length_replicate] at hL
  norm_num at hL
